import Mathlib

/-!
Verification of the streaming-QR chunker and playback scheduler.

The source is a React component (src/components/streaming-qr.tsx and the
variant in src/unnamed/part_000).  It splits a text into fixed-width
slices, base64-encodes each slice with a fallback to the empty string on
encoding failure, wraps each slice in an envelope carrying
(streamId, seq, total, data), and plays the envelopes back on an interval
timer with loop / single-pass semantics.

The embedding below models JavaScript strings as lists of UTF-16 code
units (natural numbers), the btoa encoder as a base64 encoder over byte
values together with its failure condition (a code unit above 255), the
chunking loop both as a fuel-indexed iteration (faithful to the unguarded
for-loop, able to express divergence) and as a well-founded recursion
usable when chunkSize is at least 1, and the scheduler as a small state
machine whose tick function is a direct transcription of the interval
callback.
-/

/-- A JavaScript string, seen as its list of UTF-16 code units. -/
abbrev JSStr := List Nat

/-- The code units removed by the JavaScript trim() function (WhiteSpace and
LineTerminator productions).  The source treats a text whose every unit is
such whitespace (including the empty text) as the no-stream state. -/
def isJsWhitespace (u : Nat) : Bool :=
  u == 9 || u == 10 || u == 11 || u == 12 || u == 13 || u == 32 || u == 160 ||
  u == 5760 || (decide (8192 ≤ u) && decide (u ≤ 8202)) || u == 8232 ||
  u == 8233 || u == 8239 || u == 8287 || u == 12288 || u == 65279

/-- The code unit (ASCII code) of the base64 digit with value n, for n < 64:
the alphabet A-Z, a-z, 0-9, plus, slash. -/
def sextetCode (n : Nat) : Nat :=
  if n < 26 then 65 + n
  else if n < 52 then 71 + n
  else if n < 62 then n - 4
  else if n = 62 then 43
  else 47

/-- The value of a base64 digit given by its code unit; inverse of
sextetCode on values below 64. -/
def codeSextet (c : Nat) : Nat :=
  if 65 ≤ c ∧ c ≤ 90 then c - 65
  else if 97 ≤ c ∧ c ≤ 122 then c - 71
  else if 48 ≤ c ∧ c ≤ 57 then c + 4
  else if c = 43 then 62
  else 63

/-- Base64 encoding of a byte sequence, producing the code units of the
encoded text; 61 is the code of the padding character. -/
def b64encodeBytes : List Nat → List Nat
  | [] => []
  | [a] => [sextetCode (a / 4), sextetCode (a % 4 * 16), 61, 61]
  | [a, b] => [sextetCode (a / 4), sextetCode (a % 4 * 16 + b / 16),
               sextetCode (b % 16 * 4), 61]
  | a :: b :: c :: rest =>
      sextetCode (a / 4) :: sextetCode (a % 4 * 16 + b / 16) ::
      sextetCode (b % 16 * 4 + c / 64) :: sextetCode (c % 64) ::
      b64encodeBytes rest

/-- Base64 decoding (the atob direction), from code units of the encoded
text back to the byte sequence. -/
def b64decodeCodes : List Nat → List Nat
  | w :: x :: y :: z :: rest =>
      if y = 61 then [codeSextet w * 4 + codeSextet x / 16]
      else if z = 61 then
        [codeSextet w * 4 + codeSextet x / 16,
         codeSextet x % 16 * 16 + codeSextet y / 4]
      else
        (codeSextet w * 4 + codeSextet x / 16) ::
        (codeSextet x % 16 * 16 + codeSextet y / 4) ::
        (codeSextet y % 4 * 64 + codeSextet z) ::
        b64decodeCodes rest
  | _ => []

/-- The success condition of the btoa builtin: every code unit of the input
fits in one byte.  btoa throws exactly when some unit exceeds 255. -/
def btoaOk (s : JSStr) : Bool :=
  s.all fun u => decide (u ≤ 255)

/-- Model of the safeBtoa helper of the source: base64-encode the string,
and on an encoding failure (a code unit above 255) catch the exception,
log it, and degrade to the empty string. -/
def safeBtoa (s : JSStr) : JSStr :=
  if btoaOk s then b64encodeBytes s else []

/-- One chunk of the original text plus routing metadata.  The source
serializes this object to JSON before displaying it; the claims are about
its fields, so the model keeps it structured. -/
structure Envelope where
  id : String
  seq : Nat
  total : Nat
  data : JSStr
deriving DecidableEq

/-- The totalChunks value of the source: Math.ceil(text.length / chunkSize)
for a positive chunkSize. -/
def totalChunks (text : JSStr) (cs : Nat) : Nat :=
  (text.length + cs - 1) / cs

/-- The envelope built by one iteration of the chunking loop, for the slice
of length chunkSize starting at offset i: seq is Math.floor(i / chunkSize),
total is totalChunks, data is safeBtoa of text.slice(i, i + chunkSize). -/
def mkSliceEnv (sid : String) (text : JSStr) (cs : Nat) (i : Nat) : Envelope :=
  { id := sid, seq := i / cs, total := totalChunks text cs,
    data := safeBtoa ((text.drop i).take cs) }

/-- The chunking for-loop of the source, from offset i upward, as a
well-founded recursion.  The loop advances i by chunkSize each iteration;
the guard on 0 < cs makes the recursion well-founded and is justified
against the unguarded source loop by the fuel model below. -/
def chunkFrom (sid : String) (text : JSStr) (cs : Nat) (i : Nat) : List Envelope :=
  if _h : i < text.length ∧ 0 < cs then
    mkSliceEnv sid text cs i :: chunkFrom sid text cs (i + cs)
  else []
termination_by text.length - i
decreasing_by omega

/-- The chunking for-loop exactly as written in the source (no check on
chunkSize), indexed by fuel: none means the loop has not reached its exit
condition within the given number of iterations, so divergence is the
statement that every fuel returns none. -/
def chunkLoopFuel (sid : String) (text : JSStr) (cs : Nat) : Nat → Nat → Option (List Envelope)
  | 0, _ => none
  | fuel + 1, i =>
      if i < text.length then
        match chunkLoopFuel sid text cs fuel (i + cs) with
        | some rest => some (mkSliceEnv sid text cs i :: rest)
        | none => none
      else
        some []

/-- The scheduler state owned by the component: the current chunk index
(a JavaScript number, possibly transiently out of range, hence an integer),
the hasCompletedRef flag, and whether an interval timer is live. -/
structure SchedState where
  currentIndex : Int
  hasCompleted : Bool
  timerLive : Bool
deriving DecidableEq

/-- The interval callback of the source, as a state transformer: reset an
out-of-range index to 0 and return; otherwise advance, wrapping modulo the
list length in loop mode, and in single-pass mode stop at the last index,
set hasCompleted and clear the timer when the advance would pass the end. -/
def tick (total : Nat) (lp : Bool) (s : SchedState) : SchedState :=
  if (total : Int) ≤ s.currentIndex ∨ s.currentIndex < 0 then
    { s with currentIndex := 0 }
  else
    let next := s.currentIndex + 1
    if lp then
      { s with currentIndex := next % (total : Int) }
    else if (total : Int) ≤ next then
      { currentIndex := (total : Int) - 1, hasCompleted := true, timerLive := false }
    else
      { s with currentIndex := next }

/-- n applications of the interval callback. -/
def ticks (total : Nat) (lp : Bool) : Nat → SchedState → SchedState
  | 0, s => s
  | n + 1, s => tick total lp (ticks total lp n s)

/-- The index the renderer reads: when chunks exist, the current index
clamped into the bounds of the chunk list, else 0. -/
def safeIndex (total : Nat) (idx : Int) : Int :=
  if 0 < total then max 0 (min idx ((total : Int) - 1)) else 0

/-- The body of the timer effect of the source: when disabled or without
chunks, clear any timer and stop; otherwise, when resuming from a completed
run, reset the index and the flag; then clear any stale timer and start a
fresh one. -/
def schedEffect (total : Nat) (enabled : Bool) (s : SchedState) : SchedState :=
  if enabled = false ∨ total = 0 then
    { s with timerLive := false }
  else
    let s1 := if s.hasCompleted then { s with currentIndex := 0, hasCompleted := false } else s
    { s1 with timerLive := true }

/-- The full component state relevant to the chunking effect. -/
structure CompState where
  sched : SchedState
  chunks : List Envelope
  streamId : String
deriving DecidableEq

/-- The chunking effect of the source, run whenever text or chunkSize
changes: for an empty or all-whitespace text, clear the chunk list and the
stream id and reset the index (the branch returns early, touching neither
the hasCompletedRef flag nor the timer); otherwise install a fresh stream
id and a freshly built chunk list, reset the index, clear the flag, and
cancel any live timer. -/
def chunkerEffect (newSid : String) (text : JSStr) (cs : Nat) (st : CompState) : CompState :=
  if text.all isJsWhitespace then
    { st with chunks := [], streamId := "",
              sched := { st.sched with currentIndex := 0 } }
  else
    { chunks := chunkFrom newSid text cs 0, streamId := newSid,
      sched := { currentIndex := 0, hasCompleted := false, timerLive := false } }

/-- A text or chunkSize change as the component settles it: the chunking
effect runs, then (the chunk list state having changed) the timer effect
re-runs against the new list. -/
def onInputChange (newSid : String) (text : JSStr) (cs : Nat) (enabled : Bool)
    (st : CompState) : CompState :=
  let st1 := chunkerEffect newSid text cs st
  { st1 with sched := schedEffect st1.chunks.length enabled st1.sched }

/-- The base64 digit table and its reading function are mutually inverse on
the 64 digit values. -/
lemma codeSextet_sextetCode : ∀ n, n < 64 → codeSextet (sextetCode n) = n := by
  decide

/-- No base64 digit is the padding character (code 61). -/
lemma sextetCode_ne_pad : ∀ n, n < 64 → sextetCode n ≠ 61 := by
  decide

/-- Base64 decoding inverts base64 encoding on byte sequences. -/
theorem b64decode_encode : ∀ bs : List Nat, (∀ b ∈ bs, b ≤ 255) →
    b64decodeCodes (b64encodeBytes bs) = bs
  | [] => fun _ => rfl
  | [a] => fun h => by
      have ha : a ≤ 255 := h a (by simp)
      have h1 : codeSextet (sextetCode (a / 4)) = a / 4 :=
        codeSextet_sextetCode _ (by omega)
      have h2 : codeSextet (sextetCode (a % 4 * 16)) = a % 4 * 16 :=
        codeSextet_sextetCode _ (by omega)
      have harith : a / 4 * 4 + a % 4 * 16 / 16 = a := by omega
      simp [b64encodeBytes, b64decodeCodes, h1, h2]
      omega
  | [a, b] => fun h => by
      have ha : a ≤ 255 := h a (by simp)
      have hb : b ≤ 255 := h b (by simp)
      have hy : sextetCode (b % 16 * 4) ≠ 61 := sextetCode_ne_pad _ (by omega)
      have h1 : codeSextet (sextetCode (a / 4)) = a / 4 :=
        codeSextet_sextetCode _ (by omega)
      have h2 : codeSextet (sextetCode (a % 4 * 16 + b / 16)) = a % 4 * 16 + b / 16 :=
        codeSextet_sextetCode _ (by omega)
      have h3 : codeSextet (sextetCode (b % 16 * 4)) = b % 16 * 4 :=
        codeSextet_sextetCode _ (by omega)
      have ha' : a / 4 * 4 + (a % 4 * 16 + b / 16) / 16 = a := by omega
      have hb' : (a % 4 * 16 + b / 16) % 16 * 16 + b % 16 * 4 / 4 = b := by omega
      simp [b64encodeBytes, b64decodeCodes, hy, h1, h2, h3]
      omega
  | a :: b :: c :: rest => fun h => by
      have ha : a ≤ 255 := h a (by simp)
      have hb : b ≤ 255 := h b (by simp)
      have hc : c ≤ 255 := h c (by simp)
      have hrest := b64decode_encode rest (fun x hx => h x (by simp [hx]))
      have hy : sextetCode (b % 16 * 4 + c / 64) ≠ 61 := sextetCode_ne_pad _ (by omega)
      have hz : sextetCode (c % 64) ≠ 61 := sextetCode_ne_pad _ (by omega)
      have h1 : codeSextet (sextetCode (a / 4)) = a / 4 :=
        codeSextet_sextetCode _ (by omega)
      have h2 : codeSextet (sextetCode (a % 4 * 16 + b / 16)) = a % 4 * 16 + b / 16 :=
        codeSextet_sextetCode _ (by omega)
      have h3 : codeSextet (sextetCode (b % 16 * 4 + c / 64)) = b % 16 * 4 + c / 64 :=
        codeSextet_sextetCode _ (by omega)
      have h4 : codeSextet (sextetCode (c % 64)) = c % 64 :=
        codeSextet_sextetCode _ (by omega)
      have ha' : a / 4 * 4 + (a % 4 * 16 + b / 16) / 16 = a := by omega
      have hb' : (a % 4 * 16 + b / 16) % 16 * 16 + (b % 16 * 4 + c / 64) / 4 = b := by omega
      have hc' : (b % 16 * 4 + c / 64) % 4 * 64 + c % 64 = c := by omega
      show b64decodeCodes (sextetCode (a / 4) :: sextetCode (a % 4 * 16 + b / 16) ::
             sextetCode (b % 16 * 4 + c / 64) :: sextetCode (c % 64) ::
             b64encodeBytes rest) = a :: b :: c :: rest
      simp [b64decodeCodes, hy, hz, h1, h2, h3, h4, ha', hb', hc', hrest]

/-- One step of the ceiling-division count: with m remaining units and a
positive width cs, the chunk count for m is one more than for m - cs. -/
lemma ceil_step (m cs : Nat) (hcs : 0 < cs) (hm : 0 < m) :
    (m + cs - 1) / cs = (m - cs + cs - 1) / cs + 1 := by
  have h1 : m + cs - 1 = (m - 1) + cs := by omega
  rw [h1, Nat.add_div_right _ hcs]
  rcases le_or_lt cs m with h | h
  · have h2 : m - cs + cs - 1 = m - 1 := by omega
    rw [h2]
  · have h2 : m - cs + cs - 1 = cs - 1 := by omega
    rw [h2, Nat.div_eq_of_lt (by omega), Nat.div_eq_of_lt (by omega)]

/-- Closed form of the chunking loop started at offset q * cs: one envelope
per remaining width-cs slice, with consecutive seq values from q on. -/
theorem chunkFrom_eq (sid : String) (text : JSStr) (cs : Nat) (hcs : 0 < cs) (q : Nat) :
    chunkFrom sid text cs (q * cs) =
      (List.range' q ((text.length - q * cs + cs - 1) / cs)).map
        (fun k => mkSliceEnv sid text cs (k * cs)) := by
  rcases Nat.lt_or_ge (q * cs) text.length with hlt | hge
  · rw [chunkFrom, dif_pos ⟨hlt, hcs⟩]
    have hrec := chunkFrom_eq sid text cs hcs (q + 1)
    have hq1 : (q + 1) * cs = q * cs + cs := Nat.succ_mul q cs
    rw [hq1] at hrec
    have hcnt : (text.length - q * cs + cs - 1) / cs
        = (text.length - (q * cs + cs) + cs - 1) / cs + 1 := by
      have hstep := ceil_step (text.length - q * cs) cs hcs (by omega)
      have he : text.length - q * cs - cs = text.length - (q * cs + cs) := by omega
      rw [he] at hstep
      exact hstep
    rw [hcnt, List.range'_succ, List.map_cons, hrec]
  · rw [chunkFrom, dif_neg (by omega)]
    have he : text.length - q * cs = 0 := by omega
    rw [he]
    have hz : (0 + cs - 1) / cs = 0 := Nat.div_eq_of_lt (by omega)
    rw [hz]
    rfl
termination_by text.length - q * cs
decreasing_by
  have h1 : (q + 1) * cs = q * cs + cs := by ring
  omega

/-- Closed form of the whole chunking loop (offset 0). -/
theorem chunkFrom_zero_eq (sid : String) (text : JSStr) (cs : Nat) (hcs : 0 < cs) :
    chunkFrom sid text cs 0 =
      (List.range (totalChunks text cs)).map (fun k => mkSliceEnv sid text cs (k * cs)) := by
  have h := chunkFrom_eq sid text cs hcs 0
  rw [Nat.zero_mul] at h
  rw [h, List.range_eq_range']
  rfl

/-- Decoding and concatenating the data fields of the envelopes produced
from offset i onward recovers the text from offset i onward, whenever every
code unit of the text fits in a byte (no btoa failure). -/
theorem chunkFrom_decode_flatten (sid : String) (text : JSStr) (cs : Nat) (hcs : 0 < cs)
    (hok : ∀ u ∈ text, u ≤ 255) (i : Nat) :
    ((chunkFrom sid text cs i).map (fun e => b64decodeCodes e.data)).flatten = text.drop i := by
  rcases Nat.lt_or_ge i text.length with hlt | hge
  · rw [chunkFrom, dif_pos ⟨hlt, hcs⟩, List.map_cons, List.flatten_cons]
    have hrec := chunkFrom_decode_flatten sid text cs hcs hok (i + cs)
    rw [hrec]
    have hsub : ∀ u ∈ (text.drop i).take cs, u ≤ 255 := by
      intro u hu
      exact hok u (List.drop_subset i text (List.take_subset cs (text.drop i) hu))
    have hokb : btoaOk ((text.drop i).take cs) = true := by
      rw [btoaOk, List.all_eq_true]
      intro u hu
      exact decide_eq_true (hsub u hu)
    show b64decodeCodes (mkSliceEnv sid text cs i).data ++ text.drop (i + cs) = text.drop i
    rw [mkSliceEnv]
    show b64decodeCodes (safeBtoa ((text.drop i).take cs)) ++ text.drop (i + cs) = text.drop i
    rw [safeBtoa, if_pos hokb, b64decode_encode _ hsub]
    have hdd : text.drop (i + cs) = (text.drop i).drop cs := by
      rw [List.drop_drop]
    rw [hdd, List.take_append_drop]
  · rw [chunkFrom, dif_neg (by omega)]
    rw [List.drop_eq_nil_of_le (by omega)]
    rfl
termination_by text.length - i
decreasing_by omega

/-- Claim C1: for every text and chunkSize at least 1, base64-decoding the
data field of each envelope produced by the chunking loop and concatenating
the results in production order (which C2 shows is seq order 0..total-1)
reproduces the original text exactly, with no loss and no duplication,
provided no base64-encoding failure occurred (every code unit fits a byte). -/
theorem claim1_roundtrip (sid : String) (text : JSStr) (cs : Nat) (hcs : 1 ≤ cs)
    (hok : ∀ u ∈ text, u ≤ 255) :
    ((chunkFrom sid text cs 0).map (fun e => b64decodeCodes e.data)).flatten = text := by
  have h := chunkFrom_decode_flatten sid text cs hcs hok 0
  rwa [List.drop_zero] at h

/-- Witness for C1 at text "Hi" (code units 72, 105) and chunkSize 1. -/
theorem claim1_roundtrip_witness :
    ((chunkFrom "s" [72, 105] 1 0).map (fun e => b64decodeCodes e.data)).flatten = [72, 105] :=
  claim1_roundtrip "s" [72, 105] 1 (by decide) (by decide)

/-- Claim C2: for a non-all-whitespace text (hence non-empty) and chunkSize
at least 1, the chunker produces exactly totalChunks = ceil(length/cs)
envelopes; the k-th envelope is the one for the slice at offset k * cs,
whose seq field is floor(k * cs / cs) by definition of mkSliceEnv; the seq
values are exactly 0..total-1 with no gaps or repeats; and every envelope
carries the same total and the same stream id. -/
theorem claim2_partition (sid : String) (text : JSStr) (cs : Nat) (st : CompState)
    (hcs : 1 ≤ cs) (hne : text.all isJsWhitespace = false) :
    (chunkerEffect sid text cs st).chunks.length = totalChunks text cs ∧
    (chunkerEffect sid text cs st).chunks
      = (List.range (totalChunks text cs)).map (fun k => mkSliceEnv sid text cs (k * cs)) ∧
    (chunkerEffect sid text cs st).chunks.map Envelope.seq = List.range (totalChunks text cs) ∧
    ∀ e ∈ (chunkerEffect sid text cs st).chunks, e.total = totalChunks text cs ∧ e.id = sid := by
  have hch : (chunkerEffect sid text cs st).chunks = chunkFrom sid text cs 0 := by
    rw [chunkerEffect, if_neg (by simp [hne])]
  have hz := chunkFrom_zero_eq sid text cs hcs
  refine ⟨?_, ?_, ?_, ?_⟩
  · rw [hch, hz, List.length_map, List.length_range]
  · rw [hch, hz]
  · rw [hch, hz, List.map_map]
    have hcg : ∀ k ∈ List.range (totalChunks text cs),
        (Envelope.seq ∘ fun k => mkSliceEnv sid text cs (k * cs)) k = id k := by
      intro k _
      show (mkSliceEnv sid text cs (k * cs)).seq = k
      rw [mkSliceEnv]
      exact Nat.mul_div_left k hcs
    rw [List.map_congr_left hcg, List.map_id]
  · intro e he
    rw [hch, hz, List.mem_map] at he
    obtain ⟨k, -, rfl⟩ := he
    exact ⟨rfl, rfl⟩

/-- Witness for C2 at text "ABC" (65, 66, 67), chunkSize 2. -/
theorem claim2_partition_witness :
    (chunkerEffect "s" [65, 66, 67] 2 ⟨⟨0, false, false⟩, [], ""⟩).chunks.length
        = totalChunks [65, 66, 67] 2 ∧
    (chunkerEffect "s" [65, 66, 67] 2 ⟨⟨0, false, false⟩, [], ""⟩).chunks
      = (List.range (totalChunks [65, 66, 67] 2)).map
          (fun k => mkSliceEnv "s" [65, 66, 67] 2 (k * 2)) ∧
    (chunkerEffect "s" [65, 66, 67] 2 ⟨⟨0, false, false⟩, [], ""⟩).chunks.map Envelope.seq
      = List.range (totalChunks [65, 66, 67] 2) ∧
    ∀ e ∈ (chunkerEffect "s" [65, 66, 67] 2 ⟨⟨0, false, false⟩, [], ""⟩).chunks,
      e.total = totalChunks [65, 66, 67] 2 ∧ e.id = "s" :=
  claim2_partition "s" [65, 66, 67] 2 ⟨⟨0, false, false⟩, [], ""⟩ (by decide) (by decide)

/-- Claim C9: a chunk whose base64 encoding fails (btoaOk is false because a
code unit exceeds 255) does not make the chunker fail: the k-th envelope is
still produced, with the correct id, seq and total, and its data field
degrades to the empty string.  In the model the chunker is a total function
returning no error value, mirroring that the source only logs the failure
and never surfaces it to the caller. -/
theorem claim9_encode_failure (sid : String) (text : JSStr) (cs k : Nat)
    (hcs : 1 ≤ cs) (hk : k * cs < text.length)
    (hfail : btoaOk ((text.drop (k * cs)).take cs) = false) :
    (chunkFrom sid text cs 0)[k]? =
      some { id := sid, seq := k, total := totalChunks text cs, data := [] } := by
  have hz := chunkFrom_zero_eq sid text cs hcs
  have hkN : k < totalChunks text cs := by
    have hmul : (k + 1) * cs = k * cs + cs := by ring
    have hiff : k + 1 ≤ (text.length + cs - 1) / cs ↔ (k + 1) * cs ≤ text.length + cs - 1 :=
      Nat.le_div_iff_mul_le hcs
    have : k + 1 ≤ totalChunks text cs := by
      rw [totalChunks]
      exact hiff.mpr (by omega)
    omega
  rw [hz, List.getElem?_map]
  have hrg : (List.range (totalChunks text cs))[k]? = some k := by
    rw [List.getElem?_eq_getElem (by simpa using hkN)]
    simp
  rw [hrg]
  show some (mkSliceEnv sid text cs (k * cs)) = _
  rw [mkSliceEnv, safeBtoa, hfail]
  rw [Nat.mul_div_left k hcs]
  rfl

/-- Witness for C9: the single-unit text [300] cannot be base64-encoded by
btoa, yet its envelope is produced with empty data. -/
theorem claim9_encode_failure_witness :
    (chunkFrom "s" [300] 1 0)[0]? =
      some { id := "s", seq := 0, total := totalChunks [300] 1, data := [] } :=
  claim9_encode_failure "s" [300] 1 0 (by decide) (by decide) (by decide)

/-- In single-pass mode, starting from index 0, the first k ticks with
k below total simply advance the index to k, leaving the run uncompleted
and the timer live. -/
lemma ticks_singlepass_running (total : Nat) :
    ∀ k : Nat, (k : Int) < (total : Int) →
      ticks total false k ⟨0, false, true⟩ = ⟨(k : Int), false, true⟩ := by
  intro k
  induction k with
  | zero => intro _; rfl
  | succ k ih =>
      intro hk
      have hk' : (k : Int) < (total : Int) := by push_cast at hk ⊢; omega
      rw [ticks, ih hk', tick]
      rw [if_neg (by push_cast at hk ⊢; omega)]
      simp only [Bool.false_eq_true, if_false]
      rw [if_neg (by push_cast at hk ⊢; omega)]
      have : (k : Int) + 1 = ((k + 1 : Nat) : Int) := by push_cast; ring
      rw [this]

/-- Once the single-pass run has completed (index at the last position,
flag set, timer cleared), a further stray tick leaves the state unchanged. -/
lemma tick_completed_fixed (total : Nat) (htot : 1 ≤ total) :
    tick total false ⟨(total : Int) - 1, true, false⟩ = ⟨(total : Int) - 1, true, false⟩ := by
  rw [tick]
  rw [if_neg (show ¬ ((total : Int) ≤ (total : Int) - 1 ∨ (total : Int) - 1 < 0) by omega)]
  simp only [Bool.false_eq_true, if_false]
  rw [if_pos (show (total : Int) ≤ (total : Int) - 1 + 1 by omega)]

/-- Counterexample to claim C3 as stated: with total = 3 and loop = false,
after total - 1 = 2 ticks from index 0 it is NOT the case that the
scheduler is Completed with index 2 — the index is 2 but the completed
flag is still false (completion only fires on the third tick). -/
theorem claim3_counterexample :
    ¬ ((ticks 3 false 2 ⟨0, false, true⟩).hasCompleted = true ∧
       (ticks 3 false 2 ⟨0, false, true⟩).currentIndex = 2) := by
  decide

/-- Claim C3 (amended): in single-pass mode from index 0 over total >= 1
envelopes, after k <= total - 1 ticks the index is k (so after total - 1
ticks it is total - 1) and the scheduler is still Running; the total-th
tick sets the Completed state (flag set, timer stopped) leaving the index
at total - 1; and every further tick leaves the index at total - 1. -/
theorem claim3_singlepass (total : Nat) (htot : 1 ≤ total) :
    (∀ k : Nat, k ≤ total - 1 →
       ticks total false k ⟨0, false, true⟩ = ⟨(k : Int), false, true⟩) ∧
    ticks total false total ⟨0, false, true⟩ = ⟨(total : Int) - 1, true, false⟩ ∧
    (∀ m : Nat, ticks total false (total + m) ⟨0, false, true⟩
       = ⟨(total : Int) - 1, true, false⟩) := by
  have hpart1 : ∀ k : Nat, k ≤ total - 1 →
      ticks total false k ⟨0, false, true⟩ = ⟨(k : Int), false, true⟩ := by
    intro k hk
    exact ticks_singlepass_running total k (by omega)
  have hpart2 : ticks total false total ⟨0, false, true⟩ = ⟨(total : Int) - 1, true, false⟩ := by
    obtain ⟨t, rfl⟩ : ∃ t, total = t + 1 := ⟨total - 1, by omega⟩
    rw [ticks, hpart1 t (by omega), tick]
    rw [if_neg (show ¬ (((t + 1 : Nat) : Int) ≤ (t : Int) ∨ (t : Int) < 0) by push_cast; omega)]
    simp only [Bool.false_eq_true, if_false]
    rw [if_pos (show ((t + 1 : Nat) : Int) ≤ (t : Int) + 1 by push_cast; omega)]
  refine ⟨hpart1, hpart2, ?_⟩
  intro m
  induction m with
  | zero => exact hpart2
  | succ m ih =>
      have hstep : total + (m + 1) = (total + m) + 1 := rfl
      rw [hstep, ticks, ih, tick_completed_fixed total htot]

/-- Witness for C3 (amended) at total = 3. -/
theorem claim3_singlepass_witness :
    (ticks 3 false 2 ⟨0, false, true⟩ = ⟨(2 : Int), false, true⟩) ∧
    ticks 3 false 3 ⟨0, false, true⟩ = ⟨(3 : Int) - 1, true, false⟩ ∧
    ticks 3 false (3 + 2) ⟨0, false, true⟩ = ⟨(3 : Int) - 1, true, false⟩ :=
  ⟨(claim3_singlepass 3 (by decide)).1 2 (by decide),
   (claim3_singlepass 3 (by decide)).2.1,
   (claim3_singlepass 3 (by decide)).2.2 2⟩

/-- Claim C4: for every non-empty envelope list and every integer value the
current index may hold (in particular after any sequence of timer ticks),
the index the renderer uses, safeIndex = clamp(currentIndex, 0, total - 1),
lies within [0, total - 1], so reading the envelope list at that position
always succeeds. -/
theorem claim4_safe_index (envs : List Envelope) (idx : Int) (hne : envs ≠ []) :
    0 ≤ safeIndex envs.length idx ∧
    safeIndex envs.length idx ≤ (envs.length : Int) - 1 ∧
    (envs[(safeIndex envs.length idx).toNat]?).isSome = true := by
  have htot : 0 < envs.length := List.length_pos.mpr hne
  have htotZ : (0 : Int) < (envs.length : Int) := by exact_mod_cast htot
  rw [safeIndex, if_pos htot]
  have hle : min idx ((envs.length : Int) - 1) ≤ (envs.length : Int) - 1 :=
    min_le_right _ _
  have h0 : (0 : Int) ≤ max 0 (min idx ((envs.length : Int) - 1)) := le_max_left _ _
  have h1 : max 0 (min idx ((envs.length : Int) - 1)) ≤ (envs.length : Int) - 1 :=
    max_le (by omega) hle
  refine ⟨h0, h1, ?_⟩
  have hlt : (max 0 (min idx ((envs.length : Int) - 1))).toNat < envs.length := by omega
  rw [List.getElem?_eq_getElem hlt]
  rfl

/-- Witness for C4: a one-envelope list with a wildly out-of-range index. -/
theorem claim4_safe_index_witness :
    0 ≤ safeIndex [Envelope.mk "s" 0 1 []].length 5 ∧
    safeIndex [Envelope.mk "s" 0 1 []].length 5 ≤ ([Envelope.mk "s" 0 1 []].length : Int) - 1 ∧
    ([Envelope.mk "s" 0 1 []][(safeIndex [Envelope.mk "s" 0 1 []].length 5).toNat]?).isSome
      = true :=
  claim4_safe_index [Envelope.mk "s" 0 1 []] 5 (by decide)

/-- Counterexample to claim C6 as stated: with 2 envelopes in loop mode and
the index observed out of range (at 5), the tick returns index 0, which is
not the index a tick from index 0 would produce (that tick yields 1). -/
theorem claim6_counterexample :
    ¬ ((tick 2 true ⟨5, false, true⟩).currentIndex
        = (tick 2 true ⟨0, false, true⟩).currentIndex) := by
  decide

/-- Claim C6 (amended): if at tick time the current index is observed
outside [0, total), the tick resets it to 0 and returns immediately — it
does not go on to compute next = currentIndex + 1, and the completed flag
and timer are left untouched on that tick. -/
theorem claim6_guard_reset (total : Nat) (lp : Bool) (s : SchedState)
    (h : (total : Int) ≤ s.currentIndex ∨ s.currentIndex < 0) :
    tick total lp s = { s with currentIndex := 0 } := by
  rw [tick, if_pos h]

/-- Witness for C6 (amended): out-of-range index 5 against 2 envelopes. -/
theorem claim6_guard_reset_witness :
    tick 2 true ⟨5, false, true⟩ = { SchedState.mk 5 false true with currentIndex := 0 } :=
  claim6_guard_reset 2 true ⟨5, false, true⟩ (by decide)

/-- A loop-mode tick never touches the completed flag or the timer. -/
lemma tick_loop_preserves (total : Nat) (s : SchedState) :
    (tick total true s).hasCompleted = s.hasCompleted ∧
    (tick total true s).timerLive = s.timerLive := by
  rw [tick]
  split
  · exact ⟨rfl, rfl⟩
  · exact ⟨rfl, rfl⟩

/-- In loop mode from an in-range index, n ticks move the index to
(start + n) mod total and change nothing else. -/
lemma ticks_loop_idx (total : Nat) (s : SchedState) (htot : 1 ≤ total)
    (h0 : 0 ≤ s.currentIndex) (h1 : s.currentIndex < (total : Int)) :
    ∀ n : Nat, ticks total true n s
      = { s with currentIndex := (s.currentIndex + n) % (total : Int) } := by
  have htotZ : (0 : Int) < (total : Int) := by omega
  intro n
  induction n with
  | zero =>
      show s = { s with currentIndex := (s.currentIndex + (0 : Nat)) % (total : Int) }
      rw [show (s.currentIndex + ((0 : Nat) : Int)) = s.currentIndex by push_cast; ring]
      rw [Int.emod_eq_of_lt h0 h1]
  | succ n ih =>
      rw [ticks, ih, tick]
      have hm0 : 0 ≤ (s.currentIndex + (n : Nat)) % (total : Int) :=
        Int.emod_nonneg _ (by omega)
      have hm1 : (s.currentIndex + (n : Nat)) % (total : Int) < (total : Int) :=
        Int.emod_lt_of_pos _ htotZ
      rw [if_neg (by dsimp only; omega)]
      simp only [if_true]
      have hmod : ((s.currentIndex + (n : Nat)) % (total : Int) + 1) % (total : Int)
          = (s.currentIndex + ((n + 1 : Nat) : Int)) % (total : Int) := by
        rw [Int.emod_add_emod]
        push_cast
        ring_nf
      rw [hmod]

/-- Claim C5: in loop mode over total >= 1 envelopes, a tick from an
in-range index sets the index to (index + 1) mod total and the scheduler
never leaves Running (no tick ever sets the completed flag or stops the
timer), and after any k * total ticks the whole state, in particular the
index, returns to its starting value. -/
theorem claim5_loop_mode (total : Nat) (s : SchedState) (htot : 1 ≤ total)
    (h0 : 0 ≤ s.currentIndex) (h1 : s.currentIndex < (total : Int)) :
    tick total true s = { s with currentIndex := (s.currentIndex + 1) % (total : Int) } ∧
    (∀ n : Nat, (ticks total true n s).hasCompleted = s.hasCompleted ∧
                (ticks total true n s).timerLive = s.timerLive) ∧
    ∀ k : Nat, ticks total true (k * total) s = s := by
  refine ⟨?_, ?_, ?_⟩
  · rw [tick, if_neg (by omega)]
    simp only [if_true]
  · intro n
    induction n with
    | zero => exact ⟨rfl, rfl⟩
    | succ n ih =>
        have hp := tick_loop_preserves total (ticks total true n s)
        rw [ticks]
        exact ⟨hp.1.trans ih.1, hp.2.trans ih.2⟩
  · intro k
    rw [ticks_loop_idx total s htot h0 h1 (k * total)]
    have hmod : (s.currentIndex + ((k * total : Nat) : Int)) % (total : Int)
        = s.currentIndex := by
      push_cast
      rw [Int.add_mul_emod_self]
      exact Int.emod_eq_of_lt h0 h1
    rw [hmod]

/-- Witness for C5 at total = 2, starting index 1, k = 3. -/
theorem claim5_loop_mode_witness :
    tick 2 true ⟨1, false, true⟩
      = { SchedState.mk 1 false true with currentIndex := ((1 : Int) + 1) % (2 : Int) } ∧
    ((ticks 2 true 5 ⟨1, false, true⟩).hasCompleted = false ∧
     (ticks 2 true 5 ⟨1, false, true⟩).timerLive = true) ∧
    ticks 2 true (3 * 2) ⟨1, false, true⟩ = ⟨1, false, true⟩ :=
  ⟨(claim5_loop_mode 2 ⟨1, false, true⟩ (by decide) (by decide) (by decide)).1,
   (claim5_loop_mode 2 ⟨1, false, true⟩ (by decide) (by decide) (by decide)).2.1 5,
   (claim5_loop_mode 2 ⟨1, false, true⟩ (by decide) (by decide) (by decide)).2.2 3⟩

/-- Claim C7: when the timer effect runs with enabled = true (as it does
when enabled flips to true or when frameRate or loop change) over a
non-empty envelope list while the scheduler is in the Completed state, the
current index is reset to 0 and the completed flag is cleared before the
new timer is armed, so playback restarts from the first envelope: the
resulting state is index 0, flag clear, timer live, and the renderer reads
safeIndex 0. -/
theorem claim7_restart (total : Nat) (s : SchedState) (htot : 1 ≤ total)
    (hc : s.hasCompleted = true) :
    schedEffect total true s = ⟨0, false, true⟩ ∧
    safeIndex total (schedEffect total true s).currentIndex = 0 := by
  have heff : schedEffect total true s = ⟨0, false, true⟩ := by
    rw [schedEffect, if_neg (by simp; omega)]
    rw [hc]
    rfl
  refine ⟨heff, ?_⟩
  rw [heff, safeIndex, if_pos (by omega)]
  show max 0 (min 0 ((total : Int) - 1)) = 0
  rw [min_eq_left (by omega), max_self]

/-- Witness for C7: total = 3, completed at the last index with dead timer. -/
theorem claim7_restart_witness :
    schedEffect 3 true ⟨2, true, false⟩ = ⟨0, false, true⟩ ∧
    safeIndex 3 (schedEffect 3 true ⟨2, true, false⟩).currentIndex = 0 :=
  claim7_restart 3 ⟨2, true, false⟩ (by decide) (by decide)

/-- Counterexample to claim C8 as stated: changing the text to a single
space (all-whitespace) while the scheduler had completed leaves the
completed flag SET after the chunking effect and the subsequent timer
effect have both run, contradicting the claim that the flag is cleared on
every text change regardless of prior state. -/
theorem claim8_counterexample :
    (onInputChange "new" [32] 1 true
       ⟨⟨0, true, false⟩, [Envelope.mk "old" 0 1 [81, 81, 61, 61]], "old"⟩).sched.hasCompleted
      = true := by
  decide

/-- Claim C8 (amended): when text or chunkSize change, the chunking effect
distinguishes the two branches of the source.  For non-empty,
non-all-whitespace text it cancels any live timer, resets the index to 0,
clears the completed flag, and installs a fresh stream id and a freshly
built envelope list that replace the old ones entirely.  For empty or
all-whitespace text it clears the list and the stream id and resets the
index, but returns early: the completed flag is left unchanged, and the
timer is only cancelled afterwards, by the timer effect reacting to the
now-empty list. -/
theorem claim8_input_change (sid : String) (text : JSStr) (cs : Nat) (en : Bool)
    (st : CompState) :
    (text.all isJsWhitespace = false →
      chunkerEffect sid text cs st =
        ⟨⟨0, false, false⟩, chunkFrom sid text cs 0, sid⟩) ∧
    (text.all isJsWhitespace = true →
      (chunkerEffect sid text cs st).chunks = [] ∧
      (chunkerEffect sid text cs st).streamId = "" ∧
      (chunkerEffect sid text cs st).sched
        = ⟨0, st.sched.hasCompleted, st.sched.timerLive⟩ ∧
      (onInputChange sid text cs en st).sched.timerLive = false) := by
  constructor
  · intro hne
    rw [chunkerEffect, if_neg (by simp [hne])]
  · intro hws
    have hch : chunkerEffect sid text cs st
        = { st with chunks := [], streamId := "",
                    sched := { st.sched with currentIndex := 0 } } := by
      rw [chunkerEffect, if_pos hws]
    refine ⟨by rw [hch], by rw [hch], by rw [hch], ?_⟩
    rw [onInputChange, hch]
    rw [schedEffect]
    rw [if_pos (by simp)]

/-- Witness for C8 (amended), exercising both branches: a one-letter text
rebuilds everything, a single-space text leaves the completed flag alone
and the timer effect then kills the timer. -/
theorem claim8_input_change_witness :
    chunkerEffect "s" [65] 1 ⟨⟨3, true, true⟩, [], "old"⟩
      = ⟨⟨0, false, false⟩, chunkFrom "s" [65] 1 0, "s"⟩ ∧
    (onInputChange "s2" [32] 1 true ⟨⟨1, true, true⟩, [], "old"⟩).sched.timerLive = false :=
  ⟨(claim8_input_change "s" [65] 1 true ⟨⟨3, true, true⟩, [], "old"⟩).1 (by decide),
   ((claim8_input_change "s2" [32] 1 true ⟨⟨1, true, true⟩, [], "old"⟩).2 (by decide)).2.2.2⟩

/-- With a positive chunkSize, any fuel beyond the remaining length makes
the literal source loop terminate, with the same result as the well-founded
chunking function. -/
lemma chunkLoopFuel_enough (sid : String) (text : JSStr) (cs : Nat) (hcs : 0 < cs) :
    ∀ fuel i, text.length - i < fuel →
      chunkLoopFuel sid text cs fuel i = some (chunkFrom sid text cs i) := by
  intro fuel
  induction fuel with
  | zero => intro i h; omega
  | succ fuel ih =>
      intro i h
      rw [chunkLoopFuel]
      rcases Nat.lt_or_ge i text.length with hlt | hge
      · rw [if_pos hlt, ih (i + cs) (by omega)]
        show some (mkSliceEnv sid text cs i :: chunkFrom sid text cs (i + cs))
          = some (chunkFrom sid text cs i)
        conv_rhs => rw [chunkFrom]
        rw [dif_pos ⟨hlt, hcs⟩]
      · rw [if_neg (by omega)]
        rw [chunkFrom, dif_neg (by omega)]

/-- With chunkSize 0, the source loop never advances past any in-range
offset: every fuel runs out, i.e. the loop diverges. -/
lemma chunkLoopFuel_zero_diverges (sid : String) (text : JSStr) :
    ∀ fuel i, i < text.length → chunkLoopFuel sid text 0 fuel i = none := by
  intro fuel
  induction fuel with
  | zero => intro i _; rfl
  | succ fuel ih =>
      intro i h
      rw [chunkLoopFuel, if_pos h]
      rw [show i + 0 = i from rfl, ih i h]

/-- Claim C10: the chunking loop terminates for every text exactly when
chunkSize >= 1.  With chunkSize >= 1 the fuel-indexed transcription of the
unguarded source loop terminates (fuel length + 1 suffices) and agrees with
the well-founded chunkFrom; with chunkSize 0 (the non-positive case of the
natural-number embedding) on a non-empty text the loop increment is 0, the
offset never reaches the end, and no amount of fuel terminates the loop. -/
theorem claim10_termination (sid : String) (text : JSStr) (cs : Nat) :
    (1 ≤ cs →
      chunkLoopFuel sid text cs (text.length + 1) 0 = some (chunkFrom sid text cs 0)) ∧
    (text ≠ [] → ∀ fuel, chunkLoopFuel sid text 0 fuel 0 = none) := by
  constructor
  · intro hcs
    exact chunkLoopFuel_enough sid text cs hcs (text.length + 1) 0 (by omega)
  · intro hne fuel
    exact chunkLoopFuel_zero_diverges sid text fuel 0 (List.length_pos.mpr hne)

/-- Witness for C10: the loop on "ABC" with chunkSize 2 terminates and
matches chunkFrom; on a one-unit text with chunkSize 0 fuel 5 still
returns none. -/
theorem claim10_termination_witness :
    chunkLoopFuel "s" [65, 66, 67] 2 ([65, 66, 67].length + 1) 0
      = some (chunkFrom "s" [65, 66, 67] 2 0) ∧
    chunkLoopFuel "s" [65] 0 5 0 = none :=
  ⟨(claim10_termination "s" [65, 66, 67] 2).1 (by decide),
   (claim10_termination "s" [65] 0).2 (by decide) 5⟩
